import Mathlib

/-!
Shallow embedding of `sf2-contents.py`, the structural decoder for the
SoundFont2 (SF2) sample-bank format, together with theorems checking the
specification's claims about it.

Conventions of the embedding:
* file contents and binary record slices are `List Nat` (one entry per byte);
* Python `struct.unpack` little-endian fields become `u16le` / `u32le`;
* Python text handling is modelled at the byte level where only NUL
  stripping matters (a NUL is the single byte 0 both in UTF-8 and as a
  `chr` code point, so `str.strip(chr(0))` commutes with decoding);
* `sys.exit(1)` and uncaught `struct.error` become `Except.error`;
* Python list indexing `xs[i]` is modelled with `List.getD` (every claim is
  settled at in-bounds inputs, where the two agree);
* `int(a / b) - 1` on non-negative ints is `Nat` division followed by an
  `Int` subtraction (the result can be negative, e.g. on an empty chunk).
-/

deriving instance DecidableEq for Except

/-- Little-endian 16-bit field (struct format "H") read from a byte list. -/
def u16le (bs : List Nat) (off : Nat) : Nat :=
  bs.getD off 0 + ((bs.getD (off + 1) 0) <<< 8)

/-- Little-endian 32-bit field (struct format "I") read from a byte list. -/
def u32le (bs : List Nat) (off : Nat) : Nat :=
  bs.getD off 0 + ((bs.getD (off + 1) 0) <<< 8) +
    ((bs.getD (off + 2) 0) <<< 16) + ((bs.getD (off + 3) 0) <<< 24)

/-- Python `x.strip(z)`: removes `z` from BOTH ends of the sequence. -/
def pyStrip {α : Type} [DecidableEq α] (z : α) (l : List α) : List α :=
  ((l.dropWhile (fun x => x = z)).reverse.dropWhile (fun x => x = z)).reverse

/-- PHDRRecord: struct "<20sHHHIII" (38 bytes).  `__init__` keeps only the
NUL-stripped name, preset, bank and bag index; the library/genre/morphology
arguments are dropped. -/
structure PHDRRecord where
  preset_name : List Nat
  preset : Nat
  bank : Nat
  bag_ndx : Nat
  deriving DecidableEq, Inhabited

/-- XBAGRecord: struct "<HH" (4 bytes): generator index and modulator index. -/
structure XBAGRecord where
  gen_ndx : Nat
  mod_ndx : Nat
  deriving DecidableEq, Inhabited

/-- XMODRecord: struct "<HHHHH" (10 bytes). -/
structure XMODRecord where
  mod_src_oper : Nat
  mod_dest_oper : Nat
  mod_amount : Nat
  mod_arm_src_oper : Nat
  mod_trans_oper : Nat
  deriving DecidableEq, Inhabited

/-- XGENRecord: struct "<HH" (4 bytes): generator operator and amount. -/
structure XGENRecord where
  gen_oper : Nat
  gen_amount : Nat
  deriving DecidableEq, Inhabited

/-- INSTRecord: struct "<20sH" (22 bytes); name is NUL-stripped by `__init__`. -/
structure INSTRecord where
  inst_name : List Nat
  inst_bag_ndx : Nat
  deriving DecidableEq, Inhabited

/-- SHDRRecord: struct "<20sIIIIIBbHH" (46 bytes); pitch correction is the
one signed ("b") field. -/
structure SHDRRecord where
  sample_name : List Nat
  start : Nat
  sampleEnd : Nat
  start_loop : Nat
  end_loop : Nat
  sample_rate : Nat
  original_pitch : Nat
  pitch_correction : Int
  sample_link : Nat
  sample_type : Nat
  deriving DecidableEq, Inhabited

/-- Signed 8-bit value (struct format "b") from one byte. -/
def i8 (b : Nat) : Int :=
  if b < 128 then (b : Int) else (b : Int) - 256

/-- Field decoding of one 38-byte PHDR slice (PHDRRecord.__init__ applied to
the unpacked fields: the 20-byte name is decoded and stripped of NULs at both
ends by `str.strip(chr(0))`, the three reserved fields are dropped). -/
def phdrDecode (bs : List Nat) : PHDRRecord :=
  { preset_name := pyStrip 0 (bs.take 20)
    preset := u16le bs 20
    bank := u16le bs 22
    bag_ndx := u16le bs 24 }

/-- Field decoding of one 4-byte bag slice. -/
def xbagDecode (bs : List Nat) : XBAGRecord :=
  { gen_ndx := u16le bs 0, mod_ndx := u16le bs 2 }

/-- Field decoding of one 10-byte modulator slice. -/
def xmodDecode (bs : List Nat) : XMODRecord :=
  { mod_src_oper := u16le bs 0
    mod_dest_oper := u16le bs 2
    mod_amount := u16le bs 4
    mod_arm_src_oper := u16le bs 6
    mod_trans_oper := u16le bs 8 }

/-- Field decoding of one 4-byte generator slice. -/
def xgenDecode (bs : List Nat) : XGENRecord :=
  { gen_oper := u16le bs 0, gen_amount := u16le bs 2 }

/-- Field decoding of one 22-byte instrument-header slice. -/
def instDecode (bs : List Nat) : INSTRecord :=
  { inst_name := pyStrip 0 (bs.take 20), inst_bag_ndx := u16le bs 20 }

/-- Field decoding of one 46-byte sample-header slice. -/
def shdrDecode (bs : List Nat) : SHDRRecord :=
  { sample_name := pyStrip 0 (bs.take 20)
    start := u32le bs 20
    sampleEnd := u32le bs 24
    start_loop := u32le bs 28
    end_loop := u32le bs 32
    sample_rate := u32le bs 36
    original_pitch := bs.getD 40 0
    pitch_correction := i8 (bs.getD 41 0)
    sample_link := u16le bs 42
    sample_type := u16le bs 44 }

/-- Re-encoding of one generator record as its 4 little-endian bytes
(struct.pack "<HH"; the field values produced by `xgenDecode` from genuine
bytes are below 2^16, so `/ 256` is the high byte). -/
def xgenEncode (r : XGENRecord) : List Nat :=
  [r.gen_oper % 256, r.gen_oper / 256, r.gen_amount % 256, r.gen_amount / 256]

/-- ChunkParser.parse record loop: `n` records decoded from consecutive
`recSize`-byte slices of `data`, the first starting at offset `cp`
(Python: `rec = ...unpack(data[cp:cp+rec_size]); cp += rec_size`). -/
def parseFrom {α : Type} (decode : List Nat → α) (recSize : Nat) (data : List Nat) :
    Nat → Nat → List α
  | _, 0 => []
  | cp, Nat.succ n =>
    decode ((data.drop cp).take recSize) :: parseFrom decode recSize data (cp + recSize) n

/-- ChunkParser.parse: `total_recs = int(size / rec_size) - 1` (the terminal
sentinel record is not decoded); Python's `range` of a negative count is
empty, hence the clamp `Int.toNat`. -/
def chunkParse {α : Type} (decode : List Nat → α) (recSize : Nat) (data : List Nat)
    (size : Nat) : List α :=
  parseFrom decode recSize data 0 (((size / recSize : Nat) : Int) - 1).toNat

/-- RANGE_GENS: the two range-valued generator operator codes. -/
def RANGE_GENS : List Nat := [43, 44]

/-- GEN_INSTRUMENT: operator code of the instrument cross-reference generator. -/
def GEN_INSTRUMENT : Nat := 41

/-- GEN_SAMPLE_ID: operator code of the sample cross-reference generator. -/
def GEN_SAMPLE_ID : Nat := 53

/-- Value rendered for a generator amount: Python returns either an `int` or
an `str`, modelled by this sum. -/
inductive GenValue where
  | int (n : Nat)
  | str (s : String)
  deriving DecidableEq

/-- unpack_amount: a range-valued operator renders the packed low/high bytes
as a string, every other operator passes the raw amount through. -/
def unpack_amount (gen : Nat) (amount : Nat) : GenValue :=
  if gen ∈ RANGE_GENS then
    GenValue.str (s!"{amount &&& 0xff} - {(amount &&& 0xff00) >>> 8}")
  else
    GenValue.int amount

/-- chunk_id: packs a 4-character tag into a little-endian 32-bit integer
(`id_ |= ord(id_str[j]) << (j * 8)` for j = 0..3). -/
def chunk_id (id_str : String) : Nat :=
  (List.range 4).foldl (fun id_ j => id_ ||| (((id_str.toList.getD j ' ').toNat) <<< (j * 8))) 0

/-- check_id: compares an unpacked id number against an expected tag
(the source also prints a message on mismatch; its boolean result is what
callers branch on). -/
def check_id (act_id_num : Nat) (exp_id_str : String) : Bool :=
  act_id_num == chunk_id exp_id_str

/-- struct.unpack("II", data[cp:cp+8]): two little-endian 32-bit values;
struct.error unless the slice holds the full 8 bytes. -/
def unpackII (data : List Nat) (cp : Nat) : Except String (Nat × Nat) :=
  if cp + 8 ≤ data.length then Except.ok (u32le data cp, u32le data (cp + 4))
  else Except.error "struct.error"

/-- Text value built by the non-version branch of parse_sub_chunk: the byte
loop runs `for j in range(cp+8, cp+size+7)`, i.e. over the FIRST size-1
content bytes (the final content byte is never read), each byte becoming the
character `chr(byte)`; the result is stripped of NULs at both ends. -/
def textValue (data : List Nat) (cp : Nat) (size : Nat) : String :=
  String.mk (pyStrip (Char.ofNat 0)
    ((List.range' (cp + 8) (size - 1)).map (fun j => Char.ofNat (data.getD j 0))))

/-- parse_sub_chunk: reads an 8-byte sub-chunk header at `cp`; on a tag
mismatch returns `none` (Python `None, None`); an "ifil"/"iver" body is two
little-endian 16-bit halves rendered "major.minor"; anything else is text.
On success also returns `size + 8`, the caller's cursor advance. -/
def parse_sub_chunk (data : List Nat) (cp : Nat) (id_ : String) :
    Except String (Option (String × Nat)) :=
  match unpackII data cp with
  | Except.error e => Except.error e
  | Except.ok header =>
    if header.1 ≠ chunk_id id_ then Except.ok none
    else
      let size := header.2
      if id_ ∈ (["ifil", "iver"] : List String) then
        let v := (data.drop (cp + 8)).take size
        let maj_ver := ((v.getD 1 0) <<< 8) + v.getD 0 0
        let min_ver := ((v.getD 3 0) <<< 8) + v.getD 2 0
        Except.ok (some (s!"{maj_ver}.{min_ver}", size + 8))
      else
        Except.ok (some (textValue data cp size, size + 8))

/-- Catalog of informational sub-chunks, in the source's dict insertion
order: (tag, label, mandatory). -/
def infoCatalog : List (String × String × Bool) :=
  [("ifil", "Version", true),
   ("isng", "Target Sound Engine", true),
   ("INAM", "Sound Font Bank Name", true),
   ("irom", "ROM", false),
   ("iver", "ROM Revision", false),
   ("ICRD", "Date of Creation of the Bank", false),
   ("IENG", "Sound Designers and Engineers for the Bank", false),
   ("IPRD", "Product for which the Bank was intended", false),
   ("ICOP", "Copyright", false),
   ("ICMT", "Comments", false),
   ("ISFT", "SoundFont tools used to create and alter the bank", false)]

/-- Loop of parse_info_list_chunk over the catalog: a missing mandatory
sub-chunk makes the whole function return `None` (the bare `return` in the
source), a missing optional one is skipped without advancing the cursor, a
found one appends its (label, value) pair and advances the cursor. -/
def parse_info_loop (data : List Nat) :
    Nat → List (String × String × Bool) → List (String × String) →
    Except String (Option (List (String × String)))
  | _, [], info => Except.ok (some info)
  | cp, (id_, label, mand) :: rest, info =>
    match parse_sub_chunk data cp id_ with
    | Except.error e => Except.error e
    | Except.ok none =>
      if mand then Except.ok none else parse_info_loop data cp rest info
    | Except.ok (some (val, sz)) =>
      parse_info_loop data (cp + sz) rest (info ++ [(label, val)])

/-- parse_info_list_chunk: decode the INFO catalog starting at `cp`. -/
def parse_info_list_chunk (data : List Nat) (cp : Nat) :
    Except String (Option (List (String × String))) :=
  parse_info_loop data cp infoCatalog []

/-- State of the open file: its bytes and the read cursor. -/
structure FileState where
  data : List Nat
  pos : Nat

/-- f.read(n): up to `n` bytes from the cursor; the cursor advances by the
number of bytes actually read. -/
def fread (s : FileState) (n : Nat) : List Nat × FileState :=
  let out := (s.data.drop s.pos).take n
  (out, { data := s.data, pos := s.pos + out.length })

/-- parse_chunk: read an 8-byte chunk header, exit on a tag mismatch, read
the declared number of bytes and decode the records.  struct.unpack inside
the record loop raises when a record slice is short (possible only when the
file ends before the declared size), hence the slice-length guard. -/
def parse_chunk {α : Type} (decode : List Nat → α) (recSize : Nat) (cid : String)
    (s : FileState) : Except String (List α × FileState) :=
  let r := fread s 8
  if r.1.length < 8 then Except.error "struct.error"
  else
    let id_num := u32le r.1 0
    let size := u32le r.1 4
    if check_id id_num cid then
      let rd := fread r.2 size
      if (((size / recSize : Nat) : Int) - 1).toNat * recSize ≤ rd.1.length then
        Except.ok (chunkParse decode recSize rd.1 size, rd.2)
      else Except.error "struct.error"
    else Except.error "sys.exit(1)"

/-- Everything parse_file returns: the (possibly absent) INFO list and the
nine decoded record arrays. -/
structure ParseResult where
  info : Option (List (String × String))
  phdr : List PHDRRecord
  pbag : List XBAGRecord
  pmod : List XMODRecord
  pgen : List XGENRecord
  inst : List INSTRecord
  ibag : List XBAGRecord
  imod : List XMODRecord
  igen : List XGENRecord
  shdr : List SHDRRecord
  deriving DecidableEq

/-- parse_file: verifies the outer RIFF/sfbk framing and the size field,
decodes the INFO list from the first 1024-byte buffer (the result is bound
without being checked, so a `None` flows through), skips the sample-data
list, checks the pdta LIST header and decodes the nine record arrays in
their fixed order. -/
def parse_file (file : List Nat) : Except String ParseResult := do
  let file_size := file.length
  let r0 := fread { data := file, pos := 0 } 1024
  let data := r0.1
  if data.length < 24 then throw "struct.error"
  if check_id (u32le data 0) "RIFF" = false then throw "sys.exit(1)"
  if u32le data 4 + 8 ≠ file_size then throw "sys.exit(1)"
  if check_id (u32le data 8) "sfbk" = false then throw "sys.exit(1)"
  if check_id (u32le data 12) "LIST" = false then throw "sys.exit(1)"
  if check_id (u32le data 20) "INFO" = false then throw "sys.exit(1)"
  let info ← parse_info_list_chunk data 24
  let curr1 := u32le data 16 + 20
  let hdr ← unpackII data curr1
  if check_id hdr.1 "LIST" = false then throw "sys.exit(1)"
  let curr2 := curr1 + 8 + hdr.2
  let r1 := fread { data := file, pos := curr2 } 12
  if r1.1.length < 12 then throw "struct.error"
  if check_id (u32le r1.1 0) "LIST" = false then throw "sys.exit(1)"
  if check_id (u32le r1.1 8) "pdta" = false then throw "sys.exit(1)"
  let (phdr, s2) ← parse_chunk phdrDecode 38 "phdr" r1.2
  let (pbag, s3) ← parse_chunk xbagDecode 4 "pbag" s2
  let (pmod, s4) ← parse_chunk xmodDecode 10 "pmod" s3
  let (pgen, s5) ← parse_chunk xgenDecode 4 "pgen" s4
  let (inst, s6) ← parse_chunk instDecode 22 "inst" s5
  let (ibag, s7) ← parse_chunk xbagDecode 4 "ibag" s6
  let (imod, s8) ← parse_chunk xmodDecode 10 "imod" s7
  let (igen, s9) ← parse_chunk xgenDecode 4 "igen" s8
  let (shdr, _) ← parse_chunk shdrDecode 46 "shdr" s9
  return { info := info, phdr := phdr, pbag := pbag, pmod := pmod, pgen := pgen,
           inst := inst, ibag := ibag, imod := imod, igen := igen, shdr := shdr }

/-- Loop body shared by next_bag and next_gen: take the first index strictly
greater than `ndx`, then improve whenever a smaller strictly-greater index
appears. -/
def minGreaterStep (ndx : Nat) (res : Option Nat) (b : Nat) : Option Nat :=
  if b > ndx then
    match res with
    | none => some b
    | some r => if b < r then some b else some r
  else res

/-- next_bag: scan all preset headers for the smallest bag index strictly
greater than `bag_ndx`. -/
def next_bag (phdr : List PHDRRecord) (bag_ndx : Nat) : Option Nat :=
  phdr.foldl (fun res rec => minGreaterStep bag_ndx res rec.bag_ndx) none

/-- next_gen: same scan over the bag array's generator indices. -/
def next_gen (pbag : List XBAGRecord) (gen_ndx : Nat) : Option Nat :=
  pbag.foldl (fun res rec => minGreaterStep gen_ndx res rec.gen_ndx) none

/-- Zone count computed by process for one preset header: distance to the
next bag index, or to the end of the bag array (Python ints: the result can
be negative when the bag index exceeds the array length, hence `Int`). -/
def zonesOf (phdr : List PHDRRecord) (pbagLen : Nat) (bag_ndx : Nat) : Int :=
  match next_bag phdr bag_ndx with
  | none => (pbagLen : Int) - (bag_ndx : Int)
  | some nxt => (nxt : Int) - (bag_ndx : Int)

/-- Generator count computed by process for one zone, one level deeper. -/
def gensOf (pbag : List XBAGRecord) (pgenLen : Nat) (gen_ndx : Nat) : Int :=
  match next_gen pbag gen_ndx with
  | none => (pgenLen : Int) - (gen_ndx : Int)
  | some nxt => (nxt : Int) - (gen_ndx : Int)

/-- Sequence of instrument names referenced by operator-41 generators across
one preset's zone range, in traversal order, duplicates included (the inner
double loop of process, before the "if not already present" filter). -/
def presetRefs (pbag : List XBAGRecord) (pgen : List XGENRecord) (inst : List INSTRecord)
    (bag_ndx : Nat) (zones : Int) : List (List Nat) :=
  (List.range' bag_ndx zones.toNat).flatMap fun bag_idx =>
    let bag := pbag.getD bag_idx default
    let gens := gensOf pbag pgen.length bag.gen_ndx
    (List.range' bag.gen_ndx gens.toNat).filterMap fun gen_idx =>
      let gen := pgen.getD gen_idx default
      if gen.gen_oper = 41 then some ((inst.getD gen.gen_amount default).inst_name)
      else none

/-- Append a name to the accumulated list only if it is not already present
(`if ins.inst_name not in instruments: instruments.append(...)`). -/
def insertIfAbsent (acc : List (List Nat)) (x : List Nat) : List (List Nat) :=
  if x ∈ acc then acc else acc ++ [x]

/-- Instrument list accumulated for one preset: the traversal-ordered
reference sequence filtered through insertIfAbsent. -/
def presetInstruments (pbag : List XBAGRecord) (pgen : List XGENRecord)
    (inst : List INSTRecord) (bag_ndx : Nat) (zones : Int) : List (List Nat) :=
  (presetRefs pbag pgen inst bag_ndx zones).foldl insertIfAbsent []

/-- BankEntry produced by process for one preset header. -/
structure BankEntry where
  preset : Nat
  name : List Nat
  bag_ndx : Nat
  zones : Int
  instruments : List (List Nat)
  deriving DecidableEq, Inhabited

/-- BankEntry construction for one (already sorted-in) preset header. -/
def mkBankEntry (phdr : List PHDRRecord) (pbag : List XBAGRecord) (pgen : List XGENRecord)
    (inst : List INSTRecord) (rec : PHDRRecord) : BankEntry :=
  let zones := zonesOf phdr pbag.length rec.bag_ndx
  { preset := rec.preset
    name := rec.preset_name
    bag_ndx := rec.bag_ndx
    zones := zones
    instruments := presetInstruments pbag pgen inst rec.bag_ndx zones }

/-- Ordering used by `phdr.records.sort(key=lambda r: r.bank)`. -/
def bankLE (a b : PHDRRecord) : Prop := a.bank ≤ b.bank

instance : DecidableRel bankLE := fun a b => Nat.decLe a.bank b.bank

/-- process: first sorts the preset-header array IN PLACE by bank number
(Python list.sort is a stable sort by the key; modelled by the stable
insertionSort — the mutated array is returned as the first component), then
emits one (bank, BankEntry) pair per preset header in sorted order.  The
source groups the pairs into a dict keyed by bank (insertion ordered); the
grouping copies entries without altering them, so the flat pair list carries
the same information. -/
def process (phdr : List PHDRRecord) (pbag : List XBAGRecord) (pgen : List XGENRecord)
    (inst : List INSTRecord) : List PHDRRecord × List (Nat × BankEntry) :=
  let sorted := List.insertionSort bankLE phdr
  (sorted, sorted.map (fun rec => (rec.bank, mkBankEntry sorted pbag pgen inst rec)))

/-- Modelled from the spec's words, for comparison with the source's
`pyStrip`: remove exactly the TRAILING null bytes of a field. -/
def stripTrailingNulls (bs : List Nat) : List Nat :=
  (bs.reverse.dropWhile (fun x => x = 0)).reverse

/-- Modelled from the spec's words, for comparison with the source's
accumulation loop: keep each name at its first appearance, dropping later
duplicates. -/
def firstAppearance : List (List Nat) → List (List Nat)
  | [] => []
  | x :: xs => x :: firstAppearance (xs.filter (fun y => y ≠ x))
termination_by l => l.length
decreasing_by
  simp only [List.length_cons]
  exact Nat.lt_succ_of_le (List.length_filter_le _ _)

/-- Concrete preset headers exercising the zone-count rule. -/
def phdrW : List PHDRRecord :=
  [{ preset_name := [65], preset := 0, bank := 0, bag_ndx := 0 },
   { preset_name := [66], preset := 1, bank := 0, bag_ndx := 2 },
   { preset_name := [67], preset := 2, bank := 0, bag_ndx := 5 }]

/-- Concrete preset headers whose bank order is not sorted. -/
def phdrC4 : List PHDRRecord :=
  [{ preset_name := [65], preset := 0, bank := 1, bag_ndx := 0 },
   { preset_name := [66], preset := 0, bank := 0, bag_ndx := 0 }]

/-- Concrete single-preset inputs with two operator-41 generators referencing
the same instrument. -/
def phdr7 : List PHDRRecord :=
  [{ preset_name := [65], preset := 0, bank := 0, bag_ndx := 0 }]

def pbagW : List XBAGRecord := [{ gen_ndx := 0, mod_ndx := 0 }]

def pgenW : List XGENRecord :=
  [{ gen_oper := 41, gen_amount := 0 }, { gen_oper := 41, gen_amount := 0 }]

def instW : List INSTRecord := [{ inst_name := [66], inst_bag_ndx := 0 }]

/-- Concrete 38-byte PHDR slice whose name field starts with a NUL byte. -/
def phdrBytes9 : List Nat := 0 :: 65 :: List.replicate 36 0

/-- Concrete sub-chunk bytes (8 header bytes, then content [0, 65, 0, 66]). -/
def metaBytes9 : List Nat := [0, 0, 0, 0, 0, 0, 0, 0, 0, 65, 0, 66]

/-- Bytes of a 4-character tag, as they appear in the file. -/
def tag4 (s : String) : List Nat := s.toList.map Char.toNat

/-- Concrete 124-byte SF2 file whose INFO list lacks the mandatory "ifil"
sub-chunk (its 8 INFO payload bytes are zeros), with empty record arrays. -/
def fileC5 : List Nat :=
  tag4 "RIFF" ++ [116, 0, 0, 0] ++ tag4 "sfbk" ++
  tag4 "LIST" ++ [12, 0, 0, 0] ++ tag4 "INFO" ++ List.replicate 8 0 ++
  tag4 "LIST" ++ [0, 0, 0, 0] ++
  tag4 "LIST" ++ [0, 0, 0, 0] ++ tag4 "pdta" ++
  tag4 "phdr" ++ [0, 0, 0, 0] ++ tag4 "pbag" ++ [0, 0, 0, 0] ++
  tag4 "pmod" ++ [0, 0, 0, 0] ++ tag4 "pgen" ++ [0, 0, 0, 0] ++
  tag4 "inst" ++ [0, 0, 0, 0] ++ tag4 "ibag" ++ [0, 0, 0, 0] ++
  tag4 "imod" ++ [0, 0, 0, 0] ++ tag4 "igen" ++ [0, 0, 0, 0] ++
  tag4 "shdr" ++ [0, 0, 0, 0]

/-- Concrete INFO payload holding exactly the three mandatory sub-chunks,
followed by 8 zero bytes (the next, non-matching chunk header). -/
def infoW5 : List Nat :=
  tag4 "ifil" ++ [4, 0, 0, 0] ++ [2, 1, 0, 0] ++
  tag4 "isng" ++ [2, 0, 0, 0] ++ [69, 0] ++
  tag4 "INAM" ++ [2, 0, 0, 0] ++ [65, 0] ++
  List.replicate 8 0

theorem parseFrom_length {α : Type} (d : List Nat → α) (W : Nat) (data : List Nat) :
    ∀ (n cp : Nat), (parseFrom d W data cp n).length = n := by
  intro n
  induction n with
  | zero => intro cp; rfl
  | succ n ih => intro cp; simp only [parseFrom, List.length_cons, ih]

theorem parseFrom_take {α : Type} (d : List Nat → α) (W : Nat) (data : List Nat) (M : Nat) :
    ∀ (n cp : Nat), cp + n * W ≤ M →
      parseFrom d W (data.take M) cp n = parseFrom d W data cp n := by
  intro n
  induction n with
  | zero => intro cp _; rfl
  | succ n ih =>
    intro cp h
    rw [Nat.succ_mul] at h
    have hW : cp + W ≤ M := by omega
    have hrec : cp + W + n * W ≤ M := by omega
    simp only [parseFrom]
    rw [List.drop_take, List.take_take, Nat.min_eq_left (by omega), ih (cp + W) hrec]

theorem xgen_encode_decode (bs : List Nat) (hlen : bs.length = 4)
    (hb : ∀ x ∈ bs, x < 256) : xgenEncode (xgenDecode bs) = bs := by
  match bs, hlen with
  | [a, b, c, d], _ =>
    have ha : a < 256 := hb a (by simp)
    have hc : c < 256 := hb c (by simp)
    simp only [xgenDecode, xgenEncode, u16le, Nat.shiftLeft_eq,
      List.getD_cons_zero, List.getD_cons_succ]
    refine congrArg₂ _ ?_ (congrArg₂ _ ?_ (congrArg₂ _ ?_ (congrArg₂ _ ?_ rfl))) <;> omega

theorem parseFrom_xgen_roundtrip (data : List Nat) (hb : ∀ x ∈ data, x < 256) :
    ∀ (n cp : Nat), cp + n * 4 ≤ data.length →
      ((parseFrom xgenDecode 4 data cp n).map xgenEncode).flatten =
        (data.drop cp).take (n * 4) := by
  intro n
  induction n with
  | zero => intro cp _; simp [parseFrom]
  | succ n ih =>
    intro cp h
    rw [Nat.succ_mul] at h
    have h4 : cp + 4 ≤ data.length := by omega
    have hrec : (cp + 4) + n * 4 ≤ data.length := by omega
    simp only [parseFrom, List.map_cons, List.flatten_cons]
    have hslice : ((data.drop cp).take 4).length = 4 := by
      rw [List.length_take, List.length_drop]; omega
    rw [xgen_encode_decode _ hslice
      (fun x hx => hb x (List.mem_of_mem_drop (List.mem_of_mem_take hx)))]
    rw [ih (cp + 4) hrec]
    rw [show (n + 1) * 4 = 4 + n * 4 by omega, List.take_add, List.drop_drop]

theorem list_four_zeros (l : List Nat) (hl : l.length = 4) (hz : ∀ x ∈ l, x = 0) :
    l = [0, 0, 0, 0] := by
  match l, hl with
  | [a, b, c, d], _ =>
    rw [hz a (by simp), hz b (by simp), hz c (by simp), hz d (by simp)]

/-- C2 (amended): for a generator-layout record array chunk of byte length L
with L mod 4 = 0 and L at least one record, the decoder returns exactly
L/4 - 1 records, decoded sequentially from consecutive 4-byte slices starting
at offset 0; the final record-worth of bytes is read but never appended; and
PROVIDED the chunk's final 4 bytes (the sentinel) are all zero, re-encoding
the returned records plus one zero-filled sentinel record reproduces the
original L bytes.  (The code never checks the sentinel's bytes, so the
round trip fails for a non-zero sentinel — see the counterexample.) -/
theorem claim2_record_count_and_roundtrip (data : List Nat) (L : Nat)
    (hlen : data.length = L) (hdvd : 4 ∣ L) (hge : 4 ≤ L)
    (hb : ∀ x ∈ data, x < 256) (hz : ∀ x ∈ data.drop (L - 4), x = 0) :
    (chunkParse xgenDecode 4 data L).length = L / 4 - 1 ∧
    ((chunkParse xgenDecode 4 data L).map xgenEncode).flatten ++
      xgenEncode { gen_oper := 0, gen_amount := 0 } = data := by
  obtain ⟨k, rfl⟩ := hdvd
  have hk : 1 ≤ k := by omega
  have hdiv : 4 * k / 4 = k := by omega
  have hn : (((4 * k / 4 : Nat) : Int) - 1).toNat = k - 1 := by omega
  constructor
  · rw [chunkParse, parseFrom_length, hn, hdiv]
  · rw [chunkParse, hn]
    rw [parseFrom_xgen_roundtrip data hb (k - 1) 0 (by rw [hlen]; omega)]
    simp only [List.drop_zero]
    have hlen4 : (data.drop (4 * k - 4)).length = 4 := by rw [List.length_drop, hlen]; omega
    have hz4 : data.drop (4 * k - 4) = [0, 0, 0, 0] := list_four_zeros _ hlen4 hz
    have henc : xgenEncode { gen_oper := 0, gen_amount := 0 } = [0, 0, 0, 0] := rfl
    rw [henc, show (k - 1) * 4 = 4 * k - 4 by omega, ← hz4, List.take_append_drop]

/-- C2 counterexample: a 4-byte chunk holding the single (sentinel) record
[1,0,0,0].  The decoder returns L/4 - 1 = 0 records as claimed, but
re-encoding them plus one zero-filled sentinel yields [0,0,0,0], not the
original bytes: the round-trip part of the claim is false as stated. -/
theorem claim2_roundtrip_cex :
    (4 ∣ 4) ∧ chunkParse xgenDecode 4 [1, 0, 0, 0] 4 = [] ∧
    ((chunkParse xgenDecode 4 [1, 0, 0, 0] 4).map xgenEncode).flatten ++
        xgenEncode { gen_oper := 0, gen_amount := 0 } ≠ [1, 0, 0, 0] := by decide

def c2data : List Nat := [7, 1, 3, 2, 0, 0, 0, 0]

/-- C2 witness: the amended theorem applied to a concrete 8-byte generator
chunk with a zero sentinel. -/
theorem claim2_witness :
    (chunkParse xgenDecode 4 c2data 8).length = 8 / 4 - 1 ∧
    ((chunkParse xgenDecode 4 c2data 8).map xgenEncode).flatten ++
      xgenEncode { gen_oper := 0, gen_amount := 0 } = c2data :=
  claim2_record_count_and_roundtrip c2data 8 (by decide) (by decide) (by decide)
    (by decide) (by decide)

/-- C3 (amended): when a record array chunk's byte length L is NOT an exact
multiple of the record width W, the Record Array Decoder does not fail at
all: it decodes floor(L/W) - 1 records, exactly as if it had been handed the
first floor(L/W)*W bytes, silently ignoring the trailing L mod W bytes;
there is no MalformedArrayError anywhere in the code. -/
theorem claim3_ragged_truncates {α : Type} (decode : List Nat → α) (W : Nat)
    (data : List Nat) (L : Nat) (hW : 0 < W) (hnd : ¬ W ∣ L) :
    chunkParse decode W data L =
      chunkParse decode W (data.take (L / W * W)) (L / W * W) ∧
    (chunkParse decode W data L).length = L / W - 1 := by
  have hdiv : L / W * W / W = L / W := Nat.mul_div_cancel _ hW
  constructor
  · rw [chunkParse, chunkParse, hdiv]
    have hle : (((L / W : Nat) : Int) - 1).toNat ≤ L / W := by
      generalize L / W = q
      omega
    have hbound : 0 + (((L / W : Nat) : Int) - 1).toNat * W ≤ L / W * W := by
      simpa using Nat.mul_le_mul_right W hle
    exact (parseFrom_take decode W data (L / W * W) _ 0 hbound).symm
  · rw [chunkParse, parseFrom_length]; omega

/-- C3 counterexample: a 10-byte chunk with record width 4 (10 mod 4 = 2).
The claim says this fails with MalformedArrayError; the code instead returns
the defined value [{gen_oper 513, gen_amount 1027}] without any error. -/
theorem claim3_cex :
    ¬ (4 ∣ 10) ∧
    chunkParse xgenDecode 4 [1, 2, 3, 4, 5, 6, 7, 8, 9, 10] 10 =
      [{ gen_oper := 513, gen_amount := 1027 }] := by decide

/-- C3 witness: the amended theorem applied to the concrete 10-byte chunk. -/
theorem claim3_witness :
    chunkParse xgenDecode 4 [1, 2, 3, 4, 5, 6, 7, 8, 9, 10] 10 =
      chunkParse xgenDecode 4 ([1, 2, 3, 4, 5, 6, 7, 8, 9, 10].take (10 / 4 * 4)) (10 / 4 * 4) ∧
    (chunkParse xgenDecode 4 [1, 2, 3, 4, 5, 6, 7, 8, 9, 10] 10).length = 10 / 4 - 1 :=
  claim3_ragged_truncates xgenDecode 4 [1, 2, 3, 4, 5, 6, 7, 8, 9, 10] 10 (by decide) (by decide)

/-- C10: a record array chunk shorter than one record width (including an
empty chunk) decodes to the empty record sequence without failing: the
computed record count int(L/W) - 1 is non-positive, so the loop runs zero
iterations and no byte is ever read. -/
theorem claim10_short_chunk_empty {α : Type} (decode : List Nat → α) (W : Nat)
    (data : List Nat) (L : Nat) (hlt : L < W) :
    chunkParse decode W data L = [] ∧ (((L / W : Nat) : Int) - 1) ≤ 0 := by
  have h0 : L / W = 0 := Nat.div_eq_of_lt hlt
  constructor
  · rw [chunkParse, h0]; rfl
  · rw [h0]; omega

/-- C10 witness: the theorem applied to an empty chunk with the generator
layout. -/
theorem claim10_witness :
    chunkParse xgenDecode 4 ([] : List Nat) 0 = [] ∧ (((0 / 4 : Nat) : Int) - 1) ≤ 0 :=
  claim10_short_chunk_empty xgenDecode 4 [] 0 (by decide)

theorem land_ff00_shr (A : Nat) : (A &&& 0xff00) >>> 8 = (A >>> 8) &&& 0xff := by
  apply Nat.eq_of_testBit_eq
  intro i
  have h255 : (0xff : Nat) = 2 ^ 8 - 1 := by norm_num
  have hff00 : (0xff00 : Nat) = (2 ^ 8 - 1) <<< 8 := by
    rw [Nat.shiftLeft_eq]; norm_num
  rw [Nat.testBit_shiftRight, Nat.testBit_and, Nat.testBit_and, Nat.testBit_shiftRight,
    h255, hff00, Nat.testBit_shiftLeft, Nat.testBit_two_pow_sub_one,
    Nat.testBit_two_pow_sub_one]
  have h1 : 8 + i ≥ 8 := by omega
  have h2 : 8 + i - 8 = i := by omega
  simp [h1, h2]

/-- C6: for a generator whose operator code is one of the two range-valued
operators (43, 44), unpack_amount renders the string
"{A & 0xFF} - {(A >> 8) & 0xFF}" (unsigned low byte, then unsigned high
byte); for any operator outside that pair it returns the raw amount. -/
theorem claim6_unpack_amount_rendering (gen A : Nat) :
    (gen ∈ RANGE_GENS →
      unpack_amount gen A = GenValue.str (s!"{A &&& 0xff} - {(A >>> 8) &&& 0xff}")) ∧
    (gen ∉ RANGE_GENS → unpack_amount gen A = GenValue.int A) := by
  constructor
  · intro h
    rw [unpack_amount, if_pos h, land_ff00_shr]
  · intro h
    rw [unpack_amount, if_neg h]

/-- C6 witness: the theorem applied at operator 43 (range-valued) and
operator 17 (not range-valued) with amount 4660 = 0x1234. -/
theorem claim6_witness :
    unpack_amount 43 4660 = GenValue.str (s!"{4660 &&& 0xff} - {(4660 >>> 8) &&& 0xff}") ∧
    unpack_amount 17 4660 = GenValue.int 4660 :=
  ⟨(claim6_unpack_amount_rendering 43 4660).1 (by decide),
   (claim6_unpack_amount_rendering 17 4660).2 (by decide)⟩

/-- C8: a version ("ifil") sub-chunk of declared size 4 with content bytes
[b0, b1, b2, b3] decodes to the string "<major>.<minor>" with
major = (b1 <<< 8) + b0 and minor = (b3 <<< 8) + b2. -/
theorem claim8_version_rendering (data : List Nat) (cp : Nat) (b0 b1 b2 b3 : Nat)
    (hlen : cp + 8 ≤ data.length)
    (htag : u32le data cp = chunk_id "ifil")
    (hsize : u32le data (cp + 4) = 4)
    (hv : (data.drop (cp + 8)).take 4 = [b0, b1, b2, b3]) :
    parse_sub_chunk data cp "ifil" =
      Except.ok (some (s!"{(b1 <<< 8) + b0}.{(b3 <<< 8) + b2}", 12)) := by
  have hu : unpackII data cp = Except.ok (u32le data cp, u32le data (cp + 4)) := by
    rw [unpackII, if_pos hlen]
  simp only [parse_sub_chunk, hu]
  rw [if_neg (show ¬(u32le data cp ≠ chunk_id "ifil") from fun h => h htag)]
  rw [if_pos (show "ifil" ∈ (["ifil", "iver"] : List String) by decide)]
  rw [hsize, hv]
  rfl

/-- C8 witness: the theorem applied to the concrete bytes [2, 1, 0, 0],
which decode to "258.0". -/
theorem claim8_witness :
    parse_sub_chunk [0x69, 0x66, 0x69, 0x6c, 4, 0, 0, 0, 2, 1, 0, 0] 0 "ifil" =
      Except.ok (some ("258.0", 12)) := by
  have h := claim8_version_rendering [0x69, 0x66, 0x69, 0x6c, 4, 0, 0, 0, 2, 1, 0, 0] 0
    2 1 0 0 (by decide) (by decide) (by decide) (by decide)
  rw [h]
  decide

theorem minGreater_fold_spec (z : Nat) (l : List Nat) :
    ∀ (acc : Option Nat), (∀ a, acc = some a → z < a) →
      (l.foldl (minGreaterStep z) acc = none → acc = none ∧ ∀ b ∈ l, b ≤ z) ∧
      (∀ m, l.foldl (minGreaterStep z) acc = some m →
        z < m ∧ (acc = some m ∨ m ∈ l) ∧ (∀ a, acc = some a → m ≤ a) ∧
        (∀ b ∈ l, z < b → m ≤ b)) := by
  induction l with
  | nil =>
    intro acc hacc
    refine ⟨fun h => ⟨h, by simp⟩, fun m h => ?_⟩
    simp only [List.foldl_nil] at h
    exact ⟨hacc m h, Or.inl h,
      fun a ha => by rw [h] at ha; injection ha with ha; omega, by simp⟩
  | cons b l ih =>
    intro acc hacc
    simp only [List.foldl_cons]
    by_cases hzb : b > z
    · cases acc with
      | none =>
        have hstep : minGreaterStep z none b = some b := by
          simp [minGreaterStep, hzb]
        rw [hstep]
        have H := ih (some b) (fun a ha => by injection ha with ha; omega)
        refine ⟨fun h => absurd (H.1 h).1 (by simp), fun m h => ?_⟩
        obtain ⟨hzm, hmem, hbound, htail⟩ := H.2 m h
        refine ⟨hzm, ?_, fun a ha => Option.noConfusion ha, ?_⟩
        · rcases hmem with h1 | h1
          · injection h1 with h1
            exact Or.inr (by simp [h1])
          · exact Or.inr (List.mem_cons_of_mem _ h1)
        · intro x hx hzx
          rcases List.mem_cons.mp hx with rfl | hx'
          · exact hbound x rfl
          · exact htail x hx' hzx
      | some a0 =>
        have hza0 : z < a0 := hacc a0 rfl
        have hstep : minGreaterStep z (some a0) b =
            some (if b < a0 then b else a0) := by
          simp only [minGreaterStep, if_pos hzb]
          split <;> rfl
        rw [hstep]
        have hzr : z < (if b < a0 then b else a0) := by split <;> omega
        have H := ih (some (if b < a0 then b else a0))
          (fun a ha => by injection ha with ha; omega)
        refine ⟨fun h => absurd (H.1 h).1 (by simp), fun m h => ?_⟩
        obtain ⟨hzm, hmem, hbound, htail⟩ := H.2 m h
        have hmr : m ≤ (if b < a0 then b else a0) := hbound _ rfl
        refine ⟨hzm, ?_, ?_, ?_⟩
        · rcases hmem with h1 | h1
          · injection h1 with h1
            by_cases hba : b < a0
            · rw [if_pos hba] at h1
              exact Or.inr (by simp [h1])
            · rw [if_neg hba] at h1
              exact Or.inl (by rw [h1])
          · exact Or.inr (List.mem_cons_of_mem _ h1)
        · intro a ha
          injection ha with ha
          subst ha
          split at hmr <;> omega
        · intro x hx hzx
          rcases List.mem_cons.mp hx with rfl | hx'
          · split at hmr <;> omega
          · exact htail x hx' hzx
    · have hstep : minGreaterStep z acc b = acc := by
        simp [minGreaterStep, hzb]
      rw [hstep]
      have H := ih acc hacc
      refine ⟨fun h => ?_, fun m h => ?_⟩
      · obtain ⟨h1, h2⟩ := H.1 h
        refine ⟨h1, fun x hx => ?_⟩
        rcases List.mem_cons.mp hx with rfl | hx'
        · omega
        · exact h2 x hx'
      · obtain ⟨hzm, hmem, hbound, htail⟩ := H.2 m h
        refine ⟨hzm, hmem.imp id (List.mem_cons_of_mem _), hbound, ?_⟩
        intro x hx hzx
        rcases List.mem_cons.mp hx with rfl | hx'
        · omega
        · exact htail x hx' hzx

theorem minGreater_fold_id (z : Nat) : ∀ (l : List Nat), (∀ b ∈ l, b ≤ z) →
    ∀ acc, l.foldl (minGreaterStep z) acc = acc := by
  intro l
  induction l with
  | nil => intro _ acc; rfl
  | cons b l ih =>
    intro hall acc
    simp only [List.foldl_cons]
    have hb : ¬ b > z := by
      have := hall b (by simp)
      omega
    rw [show minGreaterStep z acc b = acc by simp [minGreaterStep, hb]]
    exact ih (fun x hx => hall x (List.mem_cons_of_mem _ hx)) acc

theorem next_bag_eq_fold (phdr : List PHDRRecord) (z : Nat) :
    next_bag phdr z = (phdr.map (fun r => r.bag_ndx)).foldl (minGreaterStep z) none := by
  rw [next_bag, List.foldl_map]

/-- C1: for a preset header with zone-start index z, next_bag returns the
smallest zone-start index strictly greater than z across all preset headers
(none when every index is at most z), and the zone count computed by process
is next_z - z, or the preset-zone array length minus z when no strictly
greater index exists — in particular for a maximal zone-start index. -/
theorem claim1_zone_count (phdr : List PHDRRecord) (pbagLen z : Nat) :
    (∀ m, next_bag phdr z = some m →
        (z < m ∧ (∃ r ∈ phdr, r.bag_ndx = m) ∧ ∀ r ∈ phdr, z < r.bag_ndx → m ≤ r.bag_ndx) ∧
        zonesOf phdr pbagLen z = (m : Int) - (z : Int)) ∧
    (next_bag phdr z = none →
        (∀ r ∈ phdr, r.bag_ndx ≤ z) ∧
        zonesOf phdr pbagLen z = (pbagLen : Int) - (z : Int)) ∧
    ((∀ r ∈ phdr, r.bag_ndx ≤ z) →
        zonesOf phdr pbagLen z = (pbagLen : Int) - (z : Int)) := by
  have hfold := minGreater_fold_spec z (phdr.map (fun r => r.bag_ndx)) none (by simp)
  refine ⟨?_, ?_, ?_⟩
  · intro m hm
    have hm' := hm
    rw [next_bag_eq_fold] at hm'
    obtain ⟨hzm, hmem, _, hlb⟩ := hfold.2 m hm'
    refine ⟨⟨hzm, ?_, ?_⟩, ?_⟩
    · rcases hmem with h | h
      · exact absurd h (by simp)
      · obtain ⟨r, hr, hrm⟩ := List.mem_map.mp h
        exact ⟨r, hr, hrm⟩
    · intro r hr hzr
      exact hlb r.bag_ndx (List.mem_map_of_mem _ hr) hzr
    · unfold zonesOf
      rw [hm]
  · intro hm
    have hm' := hm
    rw [next_bag_eq_fold] at hm'
    obtain ⟨_, hall⟩ := hfold.1 hm'
    refine ⟨fun r hr => hall r.bag_ndx (List.mem_map_of_mem _ hr), ?_⟩
    unfold zonesOf
    rw [hm]
  · intro hall
    have hnone : next_bag phdr z = none := by
      rw [next_bag_eq_fold]
      exact minGreater_fold_id z _
        (fun b hb => by
          obtain ⟨r, hr, rfl⟩ := List.mem_map.mp hb
          exact hall r hr) none
    unfold zonesOf
    rw [hnone]

/-- C1 witness: the theorem applied to three concrete preset headers with
zone-start indices 0, 2, 5 and a 7-element zone array: the preset at z = 0
gets 2 - 0 zones, the maximal preset at z = 5 gets 7 - 5 zones. -/
theorem claim1_witness :
    ((0 < 2 ∧ (∃ r ∈ phdrW, r.bag_ndx = 2) ∧ ∀ r ∈ phdrW, 0 < r.bag_ndx → 2 ≤ r.bag_ndx) ∧
      zonesOf phdrW 7 0 = (2 : Int) - (0 : Int)) ∧
    zonesOf phdrW 7 5 = (7 : Int) - (5 : Int) :=
  ⟨(claim1_zone_count phdrW 7 0).1 2 (by decide),
   (claim1_zone_count phdrW 7 5).2.2 (by decide)⟩

/-- C4 counterexample: two preset headers with banks [1, 0].  After process
runs, the preset-header array has been sorted in place by bank, so it is NOT
identical to what the parse produced: the claim that process never mutates
the arrays is false. -/
theorem claim4_phdr_mutated_cex :
    (process phdrC4 [] [] []).1 ≠ phdrC4 := by decide

/-- C4 (amended): process mutates exactly one of the nine decoded arrays:
it sorts the preset-header array in place by bank number (the first
component of the embedded process result is the mutated array — a
permutation of the parse output, sorted by bank).  The other eight arrays
are only read (in the embedding they are consumed by value and never
rebuilt); the decoded records themselves are never altered. -/
theorem claim4_phdr_sorted_perm (phdr : List PHDRRecord) (pbag : List XBAGRecord)
    (pgen : List XGENRecord) (inst : List INSTRecord) :
    ((process phdr pbag pgen inst).1).Perm phdr ∧
    List.Sorted bankLE (process phdr pbag pgen inst).1 := by
  constructor
  · exact List.perm_insertionSort bankLE phdr
  · haveI : IsTotal PHDRRecord bankLE := ⟨fun a b => Nat.le_total a.bank b.bank⟩
    haveI : IsTrans PHDRRecord bankLE := ⟨fun a b c hab hbc => Nat.le_trans hab hbc⟩
    exact List.sorted_insertionSort bankLE phdr

theorem firstAppearance_mem (l : List (List Nat)) :
    ∀ y, y ∈ firstAppearance l ↔ y ∈ l := by
  induction l using firstAppearance.induct with
  | case1 => simp [firstAppearance]
  | case2 x xs ih =>
    intro y
    rw [firstAppearance]
    simp only [List.mem_cons, ih]
    constructor
    · rintro (rfl | hy)
      · exact Or.inl rfl
      · exact Or.inr (List.mem_filter.mp hy).1
    · rintro (rfl | hy)
      · exact Or.inl rfl
      · by_cases hxy : y = x
        · exact Or.inl hxy
        · exact Or.inr (List.mem_filter.mpr ⟨hy, by simp [hxy]⟩)

theorem firstAppearance_nodup (l : List (List Nat)) : (firstAppearance l).Nodup := by
  induction l using firstAppearance.induct with
  | case1 => simp [firstAppearance]
  | case2 x xs ih =>
    rw [firstAppearance]
    refine List.nodup_cons.mpr ⟨?_, ih⟩
    intro hx
    have hmem := (firstAppearance_mem _ x).mp hx
    have := (List.mem_filter.mp hmem).2
    simp at this

theorem foldl_insertIfAbsent_eq : ∀ (l acc : List (List Nat)),
    l.foldl insertIfAbsent acc =
      acc ++ firstAppearance (l.filter (fun y => y ∉ acc)) := by
  intro l
  induction l with
  | nil => intro acc; simp [firstAppearance]
  | cons x xs ih =>
    intro acc
    simp only [List.foldl_cons]
    by_cases hx : x ∈ acc
    · rw [insertIfAbsent, if_pos hx, ih acc]
      congr 2
      rw [List.filter_cons]
      simp [hx]
    · rw [insertIfAbsent, if_neg hx, ih (acc ++ [x]), List.append_assoc]
      congr 1
      rw [List.filter_cons]
      rw [if_pos (by simp [hx])]
      rw [firstAppearance]
      simp only [List.singleton_append, List.cons.injEq, true_and]
      congr 1
      rw [List.filter_filter]
      apply List.filter_congr
      intro y _
      have hiff : (y ∉ acc ++ [x]) ↔ (y ≠ x ∧ y ∉ acc) := by
        simp only [List.mem_append, List.mem_singleton, not_or]
        exact and_comm
      rw [decide_eq_decide.mpr hiff, Bool.decide_and]

theorem presetInstruments_eq (pbag : List XBAGRecord) (pgen : List XGENRecord)
    (inst : List INSTRecord) (bag_ndx : Nat) (zones : Int) :
    presetInstruments pbag pgen inst bag_ndx zones =
      firstAppearance (presetRefs pbag pgen inst bag_ndx zones) := by
  rw [presetInstruments, foldl_insertIfAbsent_eq, List.nil_append]
  congr 1
  rw [List.filter_eq_self.mpr (fun a _ => by simp)]

/-- C7: the instrument list of every BankEntry produced by process keeps
each referenced instrument name exactly once in order of first appearance:
it equals firstAppearance of the traversal-ordered reference sequence, has
no duplicates, and contains exactly the referenced names. -/
theorem claim7_instrument_dedup (phdr : List PHDRRecord) (pbag : List XBAGRecord)
    (pgen : List XGENRecord) (inst : List INSTRecord) (b : Nat) (e : BankEntry)
    (h : (b, e) ∈ (process phdr pbag pgen inst).2) :
    e.instruments = firstAppearance (presetRefs pbag pgen inst e.bag_ndx e.zones) ∧
    e.instruments.Nodup ∧
    (∀ nm, nm ∈ e.instruments ↔ nm ∈ presetRefs pbag pgen inst e.bag_ndx e.zones) := by
  simp only [process, List.mem_map] at h
  obtain ⟨rec, hrec, heq⟩ := h
  have he : e = mkBankEntry (List.insertionSort bankLE phdr) pbag pgen inst rec := by
    have := congrArg Prod.snd heq
    simpa using this.symm
  subst he
  simp only [mkBankEntry]
  refine ⟨?_, ?_, ?_⟩
  · rw [presetInstruments_eq]
  · rw [presetInstruments_eq]
    exact firstAppearance_nodup _
  · intro nm
    rw [presetInstruments_eq]
    exact firstAppearance_mem _ nm

/-- C7 witness: one preset whose single zone holds two operator-41
generators referencing instrument 0; the reference sequence is
[[66], [66]] and the resulting instrument list holds name [66] once. -/
theorem claim7_witness :
    ({ preset := 0, name := [65], bag_ndx := 0, zones := 1,
       instruments := [[66]] } : BankEntry).instruments =
      firstAppearance (presetRefs pbagW pgenW instW
        ({ preset := 0, name := [65], bag_ndx := 0, zones := 1,
           instruments := [[66]] } : BankEntry).bag_ndx
        ({ preset := 0, name := [65], bag_ndx := 0, zones := 1,
           instruments := [[66]] } : BankEntry).zones) ∧
    presetRefs pbagW pgenW instW 0 1 = [[66], [66]] :=
  ⟨(claim7_instrument_dedup phdr7 pbagW pgenW instW 0
      { preset := 0, name := [65], bag_ndx := 0, zones := 1, instruments := [[66]] }
      (by decide)).1,
   by decide⟩

theorem head?_dropWhile {α : Type} (p : α → Bool) (l : List α) :
    ∀ x, ((l.dropWhile p).head? = some x) → p x = false := by
  induction l with
  | nil => intro x h; simp [List.dropWhile] at h
  | cons a t ih =>
    intro x h
    by_cases hpa : p a = true
    · rw [List.dropWhile_cons, if_pos hpa] at h
      exact ih x h
    · rw [List.dropWhile_cons, if_neg hpa] at h
      simp only [List.head?_cons, Option.some.injEq] at h
      subst h
      simpa using hpa

theorem pyStrip_spec {α : Type} [DecidableEq α] (z : α) (l : List α) :
    ∃ pre post, (∀ x ∈ pre, x = z) ∧ (∀ x ∈ post, x = z) ∧
      l = pre ++ pyStrip z l ++ post ∧
      (pyStrip z l).head? ≠ some z ∧ (pyStrip z l).getLast? ≠ some z := by
  have hstrip : pyStrip z l =
      (((l.dropWhile (fun x => x = z)).reverse.dropWhile (fun x => x = z)).reverse) := rfl
  have hm :
      l.dropWhile (fun x => x = z) =
        pyStrip z l ++ ((l.dropWhile (fun x => x = z)).reverse.takeWhile (fun x => x = z)).reverse := by
    rw [hstrip]
    calc l.dropWhile (fun x => x = z)
        = (l.dropWhile (fun x => x = z)).reverse.reverse := (List.reverse_reverse _).symm
      _ = ((l.dropWhile (fun x => x = z)).reverse.takeWhile (fun x => x = z) ++
            (l.dropWhile (fun x => x = z)).reverse.dropWhile (fun x => x = z)).reverse := by
          rw [List.takeWhile_append_dropWhile]
      _ = ((l.dropWhile (fun x => x = z)).reverse.dropWhile (fun x => x = z)).reverse ++
            ((l.dropWhile (fun x => x = z)).reverse.takeWhile (fun x => x = z)).reverse := by
          rw [List.reverse_append]
  refine ⟨l.takeWhile (fun x => x = z),
    ((l.dropWhile (fun x => x = z)).reverse.takeWhile (fun x => x = z)).reverse,
    ?_, ?_, ?_, ?_, ?_⟩
  · intro x hx
    have := List.mem_takeWhile_imp hx
    exact of_decide_eq_true this
  · intro x hx
    rw [List.mem_reverse] at hx
    have := List.mem_takeWhile_imp hx
    exact of_decide_eq_true this
  · conv_lhs => rw [← List.takeWhile_append_dropWhile (fun x => decide (x = z)) l]
    rw [List.append_assoc]
    congr 1
  · cases hs : pyStrip z l with
    | nil => simp
    | cons a t =>
      have hhead : (l.dropWhile (fun x => x = z)).head? = some a := by
        rw [hm, hs]
        rfl
      have hpa := head?_dropWhile _ l a hhead
      simp only [List.head?_cons, ne_eq, Option.some.injEq]
      intro hz
      rw [hz] at hpa
      simp at hpa
  · rw [hstrip, List.getLast?_reverse]
    cases hh : ((l.dropWhile (fun x => x = z)).reverse.dropWhile (fun x => x = z)).head? with
    | none => simp
    | some a =>
      have hpa := head?_dropWhile _ _ a hh
      simp only [ne_eq, Option.some.injEq]
      intro hz
      rw [hz] at hpa
      simp at hpa

/-- C9 (amended): decoded text equals the raw bytes with null bytes removed
from BOTH ends (Python str.strip semantics), leaving a contiguous inner
segment with non-null first and last elements; for a metadata sub-chunk of
declared size S only the FIRST S-1 content bytes are decoded before
stripping (the final content byte is dropped). -/
theorem claim9_strip_characterization (bs : List Nat) (data : List Nat) (cp size : Nat) :
    (∃ pre post, (∀ x ∈ pre, x = 0) ∧ (∀ x ∈ post, x = 0) ∧
       bs.take 20 = pre ++ (phdrDecode bs).preset_name ++ post ∧
       (phdrDecode bs).preset_name.head? ≠ some 0 ∧
       (phdrDecode bs).preset_name.getLast? ≠ some 0) ∧
    (∃ preC postC, (∀ c ∈ preC, c = Char.ofNat 0) ∧ (∀ c ∈ postC, c = Char.ofNat 0) ∧
       (List.range' (cp + 8) (size - 1)).map (fun j => Char.ofNat (data.getD j 0)) =
         preC ++ (textValue data cp size).toList ++ postC ∧
       (textValue data cp size).toList.head? ≠ some (Char.ofNat 0) ∧
       (textValue data cp size).toList.getLast? ≠ some (Char.ofNat 0)) := by
  constructor
  · exact pyStrip_spec 0 (bs.take 20)
  · exact pyStrip_spec (Char.ofNat 0)
      ((List.range' (cp + 8) (size - 1)).map (fun j => Char.ofNat (data.getD j 0)))

/-- C9 counterexample: a name field starting with a NUL byte ([0, 65, ...])
decodes to [65], not to the trailing-only-stripped [0, 65]; and a metadata
sub-chunk with the 4 content bytes [0, 65, 0, 66] decodes to "A" (only the
first 3 bytes are read, then both ends are stripped), not to the
trailing-only-stripped 4-byte text the claim demands. -/
theorem claim9_strip_cex :
    (phdrDecode phdrBytes9).preset_name ≠ stripTrailingNulls (phdrBytes9.take 20) ∧
    textValue metaBytes9 0 4 ≠
      String.mk ((stripTrailingNulls ((metaBytes9.drop 8).take 4)).map Char.ofNat) ∧
    (metaBytes9.drop 8).take 4 = [0, 65, 0, 66] := by decide

theorem parse_info_loop_cons (data : List Nat) (cp : Nat) (id_ label : String)
    (mand : Bool) (rest : List (String × String × Bool)) (acc : List (String × String)) :
    parse_info_loop data cp ((id_, label, mand) :: rest) acc =
      match parse_sub_chunk data cp id_ with
      | Except.error e => Except.error e
      | Except.ok none =>
        if mand then Except.ok none else parse_info_loop data cp rest acc
      | Except.ok (some (val, sz)) =>
        parse_info_loop data (cp + sz) rest (acc ++ [(label, val)]) := rfl

theorem parse_info_loop_mem (data : List Nat) :
    ∀ (rest : List (String × String × Bool)) (cp : Nat) (acc info : List (String × String)),
      parse_info_loop data cp rest acc = Except.ok (some info) →
      ∀ x ∈ acc, x ∈ info := by
  intro rest
  induction rest with
  | nil =>
    intro cp acc info h x hx
    simp only [parse_info_loop, Except.ok.injEq, Option.some.injEq] at h
    subst h
    exact hx
  | cons c rest ih =>
    intro cp acc info h x hx
    obtain ⟨id_, label, mand⟩ := c
    rw [parse_info_loop_cons] at h
    cases hps : parse_sub_chunk data cp id_ with
    | error e =>
      rw [hps] at h
      exact absurd h (by simp)
    | ok r =>
      rw [hps] at h
      cases r with
      | none =>
        by_cases hm : mand
        · rw [if_pos hm] at h
          exact absurd h (by simp)
        · rw [if_neg hm] at h
          exact ih cp acc info h x hx
      | some vs =>
        obtain ⟨val, sz⟩ := vs
        exact ih (cp + sz) (acc ++ [(label, val)]) info h x (List.mem_append_left _ hx)

/-- C5 (amended): the Metadata Decoder is all-or-nothing — whenever it
returns a metadata list at all, that list contains all three mandatory
entries (format version, target engine name, bank name), so a missing
mandatory sub-chunk never yields a partial list (the decoder returns None
after printing a message naming the sub-chunk, and missing optional
sub-chunks are simply absent).  However the enclosing parse is NOT aborted:
parse_file binds the None without checking it and goes on to decode and
return the nine record arrays — see the counterexample. -/
theorem claim5_metadata_all_or_nothing (data : List Nat) (cp : Nat)
    (info : List (String × String))
    (h : parse_info_list_chunk data cp = Except.ok (some info)) :
    "Version" ∈ info.map Prod.fst ∧ "Target Sound Engine" ∈ info.map Prod.fst ∧
    "Sound Font Bank Name" ∈ info.map Prod.fst := by
  rw [parse_info_list_chunk, infoCatalog, parse_info_loop_cons] at h
  split at h
  · exact absurd h (by simp)
  · simp at h
  · rename_i x1 v1 s1 heq1
    rw [parse_info_loop_cons] at h
    split at h
    · exact absurd h (by simp)
    · simp at h
    · rename_i x2 v2 s2 heq2
      rw [parse_info_loop_cons] at h
      split at h
      · exact absurd h (by simp)
      · simp at h
      · rename_i x3 v3 s3 heq3
        have hmem := parse_info_loop_mem data _ _ _ _ h
        refine ⟨?_, ?_, ?_⟩
        · exact List.mem_map.mpr ⟨("Version", v1), hmem _ (by simp), rfl⟩
        · exact List.mem_map.mpr ⟨("Target Sound Engine", v2), hmem _ (by simp), rfl⟩
        · exact List.mem_map.mpr ⟨("Sound Font Bank Name", v3), hmem _ (by simp), rfl⟩

set_option maxRecDepth 40000 in
/-- C5 witness: the amended theorem applied to a concrete INFO payload
holding exactly the three mandatory sub-chunks. -/
theorem claim5_witness :
    "Version" ∈
      ([("Version", "258.0"), ("Target Sound Engine", "E"),
        ("Sound Font Bank Name", "A")].map Prod.fst) ∧
    "Target Sound Engine" ∈
      ([("Version", "258.0"), ("Target Sound Engine", "E"),
        ("Sound Font Bank Name", "A")].map Prod.fst) ∧
    "Sound Font Bank Name" ∈
      ([("Version", "258.0"), ("Target Sound Engine", "E"),
        ("Sound Font Bank Name", "A")].map Prod.fst) :=
  claim5_metadata_all_or_nothing infoW5 0
    [("Version", "258.0"), ("Target Sound Engine", "E"), ("Sound Font Bank Name", "A")]
    (by rfl)

set_option maxRecDepth 60000 in
/-- C5 counterexample: a complete 124-byte file whose INFO list lacks the
mandatory "ifil" sub-chunk.  parse_file neither aborts nor withholds the
partial result: it returns successfully with info = none and the nine
(empty) decoded record arrays. -/
theorem claim5_parse_not_aborted_cex :
    parse_file fileC5 = Except.ok
      { info := none, phdr := [], pbag := [], pmod := [], pgen := [],
        inst := [], ibag := [], imod := [], igen := [], shdr := [] } := by rfl
